import Mathlib

/-!
Verification of the DBGp protocol core of the xdebug-mcp server.

The definitions below are a shallow embedding of the TypeScript source:

* the frame codec and command machinery of `DbgpConnection`
  (src/src/dbgp/connection.ts): `processBuffer`, `sendCommand`,
  `handleMessage`, `processQueue`, `escapeArg`, `parseResponse`,
  `parseStream`;
* the session-close / active-session logic of `SessionManager`;
* the error paths of `DebugSession.getVariable`, `DebugSession.getSource`,
  `DebugSession.setLineBreakpoint` and `DebugSession.stop`;
* `PendingBreakpointsManager.applyToSession`.

Buffers are lists of bytes (`List Nat`), JavaScript strings are `String`
or `List Char`, `parseInt` is modelled with `Option Int` where `none`
stands for `NaN`, and the event-driven connection is modelled as a step
function over an explicit state record.
-/

namespace XdebugMcp

/-! ## Model of JavaScript `parseInt(s, 10)` on bytes

`processBuffer` converts the length prefix with `toString('utf8')` and
`parseInt(lengthStr, 10)`; we model the composition directly on the bytes.
`none` models `NaN`. -/

/-- Decimal value of an ASCII digit byte, `none` for any other byte. -/
def digitValB (b : Nat) : Option Nat :=
  if 48 ≤ b ∧ b ≤ 57 then some (b - 48) else none

/-- Longest leading run of decimal digit bytes, as digit values. -/
def takeDigitsB : List Nat → List Nat
  | [] => []
  | b :: bs =>
    match digitValB b with
    | some d => d :: takeDigitsB bs
    | none => []

/-- Value of a most-significant-first digit list. -/
def digitsToNat (ds : List Nat) : Nat :=
  ds.foldl (fun a d => a * 10 + d) 0

/-- ASCII whitespace bytes skipped by JavaScript `parseInt`. -/
def isJsSpaceB (b : Nat) : Bool :=
  b = 9 ∨ b = 10 ∨ b = 11 ∨ b = 12 ∨ b = 13 ∨ b = 32

/-- JavaScript `parseInt(str, 10)` on the bytes of `str`: skip leading
whitespace, read an optional sign, then the longest leading digit run;
`none` models `NaN` (no digits at all). -/
def parseIntB (bs : List Nat) : Option Int :=
  let rest := bs.dropWhile (fun b => isJsSpaceB b)
  let sign : Int := if rest.head? = some 45 then -1 else 1
  let digitsPart := if rest.head? = some 45 ∨ rest.head? = some 43 then rest.tail else rest
  let ds := takeDigitsB digitsPart
  if ds = [] then none else some (sign * (digitsToNat ds : Int))

/-! ## Frame codec (`DbgpConnection.processBuffer`)

The codec is a two-state machine (`enum ParserState { DataLength,
Response }` plus the `expectedLength` field, folded into the `response`
constructor).  `processBuffer` loops over the buffer: in `dataLength` it
scans for the first NUL, parses the prefix as a decimal length and skips
the prefix on a malformed or non-positive value; in `response n` it waits
for `n + 1` bytes, takes the first `n` as the payload and consumes the
byte after it.  The recursion is written with explicit fuel (one unit per
consumed byte at least) so that it is structural; `processBuffer` applies
it with fuel `buf.length`, which is always sufficient. -/

/-- Parser state of the frame codec. -/
inductive PState where
  | dataLength : PState
  | response : Nat → PState
  deriving Repr, DecidableEq

/-- First index of a NUL byte (`buffer.indexOf(0)`). -/
def firstNul : List Nat → Option Nat
  | [] => none
  | b :: bs => if b = 0 then some 0 else (firstNul bs).map (· + 1)

/-- Fuelled body of `processBuffer`; returns final parser state, residual
buffer and the emitted payloads in order. -/
def processBufferF : Nat → PState → List Nat → PState × List Nat × List (List Nat)
  | _, st, [] => (st, [], [])
  | 0, st, buf => (st, buf, [])
  | fuel + 1, PState.dataLength, buf =>
    match firstNul buf with
    | none => (PState.dataLength, buf, [])
    | some k =>
      match parseIntB (buf.take k) with
      | some n =>
        if n ≤ 0 then processBufferF fuel PState.dataLength (buf.drop (k + 1))
        else processBufferF fuel (PState.response n.toNat) (buf.drop (k + 1))
      | none => processBufferF fuel PState.dataLength (buf.drop (k + 1))
  | fuel + 1, PState.response n, buf =>
    if buf.length < n + 1 then (PState.response n, buf, [])
    else
      let r := processBufferF fuel PState.dataLength (buf.drop (n + 1))
      (r.1, r.2.1, buf.take n :: r.2.2)

/-- `DbgpConnection.processBuffer`, as a function of the parser state and
the buffer. -/
def processBuffer (st : PState) (buf : List Nat) : PState × List Nat × List (List Nat) :=
  processBufferF buf.length st buf

/-- `DbgpConnection.handleData`: append the chunk to the buffer and run
`processBuffer`; result is the new codec state and the emitted payloads. -/
def feed (s : PState × List Nat) (data : List Nat) :
    (PState × List Nat) × List (List Nat) :=
  let r := processBuffer s.1 (s.2 ++ data)
  ((r.1, r.2.1), r.2.2)

/-- Feed a sequence of chunks, concatenating the emitted payloads. -/
def feedChunks (s : PState × List Nat) : List (List Nat) → (PState × List Nat) × List (List Nat)
  | [] => (s, [])
  | c :: cs =>
    let r1 := feed s c
    let r2 := feedChunks r1.1 cs
    (r2.1, r1.2 ++ r2.2)

/-- Initial codec state: empty buffer, awaiting a length prefix. -/
def codecInit : PState × List Nat := (PState.dataLength, [])

/-! ## Wire encoding of a frame sequence (spec §6 / §8) -/

/-- Fuelled most-significant-first decimal digits. -/
def natDigitsF : Nat → Nat → List Nat
  | 0, _ => []
  | fuel + 1, n => if n < 10 then [n] else natDigitsF fuel (n / 10) ++ [n % 10]

/-- Decimal digits of `n`, most significant first. -/
def natDigits (n : Nat) : List Nat :=
  natDigitsF (n + 1) n

/-- ASCII bytes of the decimal representation of `n`. -/
def digitsBytes (n : Nat) : List Nat :=
  (natDigits n).map (· + 48)

/-- Wire bytes of a payload sequence:
`digits(len_i) ‖ 0x00 ‖ payload_i ‖ 0x00` concatenated. -/
def encodeFrames (ps : List (List Nat)) : List Nat :=
  (ps.map (fun p => digitsBytes p.length ++ 0 :: (p ++ [0]))).flatten

/-! ## Model of JavaScript `parseInt(s, 10)` on strings

`DbgpConnection.parseResponse` reads the transaction id with
`parseInt(attrs['@_transaction_id'] || '0', 10)`. -/

/-- Characters matched by the JavaScript `\s` class (ASCII part plus NBSP;
the remaining Unicode space characters never occur in DBGp traffic and are
irrelevant to the properties proved here). -/
def jsWhitespaceChar (c : Char) : Bool :=
  c = ' ' ∨ c = '\t' ∨ c = '\n' ∨ c = '\r' ∨ c = '\x0b' ∨ c = '\x0c' ∨ c = '\u00A0'

/-- Decimal value of a digit character. -/
def digitValC (c : Char) : Option Nat :=
  if '0' ≤ c ∧ c ≤ '9' then some (c.toNat - 48) else none

/-- Longest leading run of decimal digit characters, as digit values. -/
def takeDigitsC : List Char → List Nat
  | [] => []
  | c :: cs =>
    match digitValC c with
    | some d => d :: takeDigitsC cs
    | none => []

/-- JavaScript `parseInt(str, 10)` on a character list. -/
def parseIntC (s : List Char) : Option Int :=
  let rest := s.dropWhile (fun c => jsWhitespaceChar c)
  let sign : Int := if rest.head? = some '-' then -1 else 1
  let digitsPart := if rest.head? = some '-' ∨ rest.head? = some '+' then rest.tail else rest
  let ds := takeDigitsC digitsPart
  if ds = [] then none else some (sign * (digitsToNat ds : Int))

/-- JavaScript `parseInt(str, 10)` on a string. -/
def parseIntStr (s : String) : Option Int :=
  parseIntC s.toList

/-- JavaScript `a || d` for an optional string `a`: `d` when `a` is
`undefined` or the empty string (both falsy). -/
def jsOrStr (o : Option String) (d : String) : String :=
  match o with
  | none => d
  | some s => if s = "" then d else s

/-- Transaction id of a parsed response
(`parseInt(attrs['@_transaction_id'] || '0', 10)`); `none` models `NaN`. -/
def parseTransactionId (attr : Option String) : Option Int :=
  parseIntStr (jsOrStr attr "0")

/-! ## Connection command machinery (`DbgpConnection.sendCommand`,
`handleMessage`, `processQueue`, timeout callback, `handleClose`)

The connection is modelled as a state record driven by events.  A `send c`
event is one `sendCommand` call by caller `c`: if a command is outstanding
the deferred execution is pushed on the FIFO `queue`, otherwise it executes
at once — allocating `txId = ++transactionId`, registering the waiter in
`pending` and writing the command to the socket (recorded in `written`).
A `response t` event is `handleMessage` on a response frame whose parsed
transaction id is `t` (`none` models `NaN`): the matching waiter, if any,
is removed, the response is emitted, and one queued command is drained if
none is outstanding.  A `timeout t` event is the timer callback of waiter
`t`; `socketClose` is `handleClose`. -/

/-- Connection state: transaction counter, outstanding waiters (the keys of
`pendingCommands`), queued deferred commands (caller labels, FIFO), close
flag, the `(caller, txId)` pairs written to the socket in order, and the
transaction ids of emitted `response` events. -/
structure ConnState where
  txCounter : Nat
  pending : List Nat
  queue : List Nat
  closed : Bool
  written : List (Nat × Nat)
  emitted : List (Option Int)
  deriving Repr, DecidableEq

/-- Fresh connection. -/
def connInit : ConnState :=
  { txCounter := 0, pending := [], queue := [], closed := false,
    written := [], emitted := [] }

/-- The `execute` closure of `sendCommand`: allocate `txId = ++transactionId`,
register the waiter, write the command. -/
def executeCmd (c : Nat) (s : ConnState) : ConnState :=
  { s with
    txCounter := s.txCounter + 1,
    pending := s.pending ++ [s.txCounter + 1],
    written := s.written ++ [(c, s.txCounter + 1)] }

/-- `DbgpConnection.processQueue`: if the queue is non-empty and no command
is outstanding, shift one deferred command and execute it. -/
def drainQueue (s : ConnState) : ConnState :=
  match s.queue, s.pending with
  | c :: rest, [] => executeCmd c { s with queue := rest }
  | _, _ => s

/-- `DbgpConnection.sendCommand` by caller `c`: throw when closed (no state
change), queue when a command is outstanding, execute otherwise. -/
def sendCommandEvt (c : Nat) (s : ConnState) : ConnState :=
  if s.closed then s
  else if s.pending.isEmpty then executeCmd c s
  else { s with queue := s.queue ++ [c] }

/-- Removal of the waiter matching a parsed transaction id
(`pendingCommands.get(txId)` / `delete`): a `NaN` id (`none`) matches no
numeric key. -/
def deletePending (t : Option Int) (p : List Nat) : List Nat :=
  match t with
  | none => p
  | some n => p.filter (fun x => (x : Int) ≠ n)

/-- Response handling in `handleMessage`: complete the matching waiter if
any, emit the `response` event, then drain the queue. -/
def handleResponseEvt (t : Option Int) (s : ConnState) : ConnState :=
  drainQueue { s with pending := deletePending t s.pending, emitted := s.emitted ++ [t] }

/-- The command-timeout callback for waiter `t`: drop the waiter, then
drain the queue. -/
def handleTimeoutEvt (t : Nat) (s : ConnState) : ConnState :=
  drainQueue { s with pending := s.pending.filter (fun x => x ≠ t) }

/-- `DbgpConnection.handleClose`: reject all waiters, clear the queue, set
the close flag. -/
def handleCloseEvt (s : ConnState) : ConnState :=
  { s with closed := true, pending := [], queue := [] }

/-- Events that drive a connection. -/
inductive ConnEvent where
  | send : Nat → ConnEvent
  | response : Option Int → ConnEvent
  | timeout : Nat → ConnEvent
  | socketClose : ConnEvent
  deriving Repr, DecidableEq

/-- One event step of the connection. -/
def stepConn (s : ConnState) : ConnEvent → ConnState
  | ConnEvent.send c => sendCommandEvt c s
  | ConnEvent.response t => handleResponseEvt t s
  | ConnEvent.timeout t => handleTimeoutEvt t s
  | ConnEvent.socketClose => handleCloseEvt s

/-- Run a connection from the fresh state over an event interleaving. -/
def runConn (evts : List ConnEvent) : ConnState :=
  evts.foldl stepConn connInit

/-! ## Argument escaping (`DbgpConnection.escapeArg`) -/

/-- The test `/[\s"\\]/.test(value)`. -/
def hasSpecialChar (v : List Char) : Bool :=
  v.any (fun c => jsWhitespaceChar c ∨ c = '"' ∨ c = '\\')

/-- `value.replace(/\\/g, '\\\\')`: double every backslash. -/
def replaceBackslash : List Char → List Char
  | [] => []
  | c :: cs =>
    if c = '\\' then '\\' :: '\\' :: replaceBackslash cs
    else c :: replaceBackslash cs

/-- `.replace(/"/g, '\\"')`: backslash-escape every double quote. -/
def replaceQuote : List Char → List Char
  | [] => []
  | c :: cs =>
    if c = '"' then '\\' :: '"' :: replaceQuote cs
    else c :: replaceQuote cs

/-- `DbgpConnection.escapeArg`: quote and escape a value containing
whitespace, a quote or a backslash; pass anything else through. -/
def escapeArg (v : List Char) : List Char :=
  if hasSpecialChar v then '"' :: (replaceQuote (replaceBackslash v) ++ ['"'])
  else v

/-- Unescape the body of a quoted argument: `\x` stands for `x`.
Modelled from the spec: the de-escaping parse of an argument value is not
part of this repository (the engine performs it); the spec fixes quoting
with `\` and `"` backslash-escaped inside `"..."`. -/
def unescapeBody : List Char → List Char
  | [] => []
  | '\\' :: c :: cs => c :: unescapeBody cs
  | c :: cs => c :: unescapeBody cs

/-- Modelled from the spec: the de-escaped parse of an argument token — a
token wrapped in double quotes has the wrapper removed and its body
unescaped, any other token stands for itself. -/
def deEscapeArg (s : List Char) : List Char :=
  match s with
  | '"' :: rest =>
    if rest.getLast? = some '"' then unescapeBody rest.dropLast else s
  | _ => s

/-! ## Base64 decoding (`Buffer.from(content, 'base64').toString('utf8')`) -/

/-- Value of a base64 alphabet character; `none` for padding and any
character outside the alphabet (ignored, as Node ignores them). -/
def b64val (c : Char) : Option Nat :=
  if 'A' ≤ c ∧ c ≤ 'Z' then some (c.toNat - 65)
  else if 'a' ≤ c ∧ c ≤ 'z' then some (c.toNat - 97 + 26)
  else if '0' ≤ c ∧ c ≤ '9' then some (c.toNat - 48 + 52)
  else if c = '+' then some 62
  else if c = '/' then some 63
  else none

/-- Regroup 6-bit values into bytes; a trailing group of 2 or 3 sextets
yields 1 or 2 bytes. -/
def b64groups : List Nat → List Nat
  | a :: b :: c :: d :: rest =>
    (a * 4 + b / 16) :: ((b % 16) * 16 + c / 4) :: ((c % 4) * 64 + d) :: b64groups rest
  | [a, b] => [a * 4 + b / 16]
  | [a, b, c] => [a * 4 + b / 16, (b % 16) * 16 + c / 4]
  | _ => []

/-- Bytes of the base64 decoding of a character list. -/
def b64decodeBytes (s : List Char) : List Nat :=
  b64groups (s.filterMap b64val)

/-- Base64 decoding of a string, re-read as text. -/
def b64decodeStr (s : String) : String :=
  String.mk ((b64decodeBytes s.toList).map Char.ofNat)

/-! ## Stream records (`DbgpConnection.parseStream`) -/

/-- Attributes and text of a `stream` element as the XML parser delivers
them (`none` = attribute absent). -/
structure StreamAttrs where
  typ : Option String
  encoding : Option String
  text : Option String
  deriving Repr, DecidableEq

/-- The `StreamData` record emitted with the `stream` event. -/
structure StreamData where
  typ : Option String
  encoding : String
  content : String
  deriving Repr, DecidableEq

/-- `DbgpConnection.parseStream`: `encoding = attrs['@_encoding'] || 'base64'`,
`content = attrs['#text'] || ''`, decoded when the encoding is `base64` and
the content is non-empty. -/
def parseStream (a : StreamAttrs) : StreamData :=
  let encoding := jsOrStr a.encoding "base64"
  let content0 := jsOrStr a.text ""
  let content :=
    if encoding = "base64" ∧ content0 ≠ "" then b64decodeStr content0 else content0
  { typ := a.typ, encoding := encoding, content := content }

/-! ## Responses as the session sees them (`DebugSession`, part_005)

`RespModel` carries the fields of a parsed `DbgpResponse` that the claims
touch: the `status` attribute, the post-step location `message`, the
`error` element, the parsed `data['property']` (what
`connection.parseProperty` would return), and the raw `#text`,
`@_encoding`, `@_id`, `@_resolved` entries of `data` used by `getSource`
and `parseBreakpointSet`. -/

/-- An engine `error` element: `{ code, message }`. -/
structure DbgpErr where
  code : Int
  message : String
  deriving Repr, DecidableEq

/-- A parsed property (only the fields the claims need). -/
structure PropertyVal where
  name : String
  typ : String
  value : Option String
  deriving Repr, DecidableEq

/-- A parsed response, restricted to the fields the session operations
under verification read. -/
structure RespModel where
  status : Option String
  message : Option (String × Int)
  error : Option DbgpErr
  property : Option PropertyVal
  dataText : Option String
  dataEncoding : Option String
  dataId : Option String
  dataResolved : Option String
  deriving Repr, DecidableEq

/-- `DebugSession.getVariable` after the `property_get` response arrives:
`if (response.error) return null; return parseProperty(response)`. -/
def getVariableFromResponse (r : RespModel) : Option PropertyVal :=
  if r.error.isSome then none else r.property

/-- `DebugSession.getSource` after the `source` response arrives:
`if (response.error) return null`, else the `#text`, base64-decoded when
`@_encoding === 'base64'` and non-empty. -/
def getSourceFromResponse (r : RespModel) : Option String :=
  if r.error.isSome then none
  else
    let content := jsOrStr r.dataText ""
    if r.dataEncoding = some "base64" ∧ content ≠ "" then some (b64decodeStr content)
    else some content

/-- `DbgpConnection.parseBreakpointSet`. -/
structure BpSetResult where
  id : String
  resolved : Bool
  deriving Repr, DecidableEq

/-- `DbgpConnection.parseBreakpointSet` on a response. -/
def parseBreakpointSet (r : RespModel) : BpSetResult :=
  { id := jsOrStr r.dataId "", resolved := r.dataResolved = some "1" }

/-- `DebugSession.setLineBreakpoint` after the `breakpoint_set` response:
an engine error raises `Failed to set breakpoint: <message>`. -/
def setLineBreakpointFromResponse (r : RespModel) : Except String BpSetResult :=
  match r.error with
  | some e => Except.error ("Failed to set breakpoint: " ++ e.message)
  | none => Except.ok (parseBreakpointSet r)

/-! ## Session status on `stop` (`DebugSession.stop` and the `response`
handler installed in the constructor)

When the `stop` response frame arrives, `handleMessage` emits the
`response` event synchronously — running the constructor's handler, which
applies the status attribute and location — and only then does the awaited
`sendCommand` promise resume, after which `stop` assigns
`this.status = 'stopped'`. -/

/-- Session state the claims touch. -/
structure SessState where
  status : String
  currentFile : Option String
  currentLine : Option Int
  deriving Repr, DecidableEq

/-- The constructor's `response` handler: a truthy `status` attribute
overwrites the status; a `message` element overwrites the location. -/
def onResponse (st : SessState) (r : RespModel) : SessState :=
  let st1 :=
    match r.status with
    | some s => if s ≠ "" then { st with status := s } else st
    | none => st
  match r.message with
  | some m => { st1 with currentFile := some m.1, currentLine := some m.2 }
  | none => st1

/-- `DebugSession.stop`: the response is delivered (running the handler),
then the status is overwritten with `stopped`. -/
def sessionAfterStop (st : SessState) (r : RespModel) : SessState :=
  let st1 := onResponse st r
  { st1 with status := "stopped" }

/-! ## Session manager close handler (`SessionManager.createSession`,
part_001 lines 296-308) -/

/-- A live session as the manager sees it: id and current status, listed
in creation (map-insertion) order. -/
structure MgrSession where
  id : String
  status : String
  deriving Repr, DecidableEq

/-- Manager state: the insertion-ordered session map and `activeSessionId`. -/
structure MgrState where
  sessions : List MgrSession
  activeId : Option String
  deriving Repr, DecidableEq

/-- The `close` handler: delete the entry; if `activeSessionId` pointed at
it, clear it and select the first remaining session
(`this.sessions.values().next().value`), if any. -/
def handleSessionClose (sid : String) (st : MgrState) : MgrState :=
  let remaining := st.sessions.filter (fun s => s.id ≠ sid)
  if st.activeId = some sid then
    match remaining.head? with
    | some nxt => { sessions := remaining, activeId := some nxt.id }
    | none => { sessions := remaining, activeId := none }
  else { st with sessions := remaining }

/-- The election rule as the spec states it (for comparison with the
code's close handler): the earliest-created session with status `break`,
else the earliest-created session, else none. -/
def specElectActive (sessions : List MgrSession) : Option String :=
  match sessions.find? (fun s => s.status = "break") with
  | some s => some s.id
  | none => sessions.head?.map (fun s => s.id)

/-! ## Pending breakpoints (`PendingBreakpointsManager.applyToSession`,
part_007 lines 398-460) -/

/-- Kind of a pending breakpoint. -/
inductive PendingBpType where
  | line
  | exception
  | call
  deriving Repr, DecidableEq

/-- A pending breakpoint entry. -/
structure PendingBp where
  id : String
  typ : PendingBpType
  file : Option String
  line : Option Nat
  exceptionName : Option String
  functionName : Option String
  enabled : Bool
  deriving Repr, DecidableEq

/-- An applied mapping `{ pendingId, sessionId, breakpointId }`. -/
structure AppliedBp where
  pendingId : String
  sessionId : String
  breakpointId : String
  deriving Repr, DecidableEq

/-- JavaScript truthiness of an optional string (`undefined` and `''` are
falsy). -/
def strTruthy (o : Option String) : Bool :=
  match o with
  | some s => s ≠ ""
  | none => false

/-- JavaScript truthiness of an optional number (`undefined` and `0` are
falsy). -/
def natTruthy (o : Option Nat) : Bool :=
  match o with
  | some n => n ≠ 0
  | none => false

/-- One loop iteration of `applyToSession` for entry `bp`: skip disabled
entries; for each kind, guard on the truthiness of its fields exactly as
the `if (bp.file && bp.line)`-style checks do, call the session's
`set*Breakpoint` (abstracted as `engine`, which returns the engine
breakpoint id or throws), and push the applied mapping; a thrown failure
is caught and logged, contributing nothing. -/
def applyOne (engine : PendingBp → Except String String) (sid : String)
    (bp : PendingBp) : List AppliedBp :=
  if bp.enabled = false then []
  else
    match bp.typ with
    | PendingBpType.line =>
      if strTruthy bp.file ∧ natTruthy bp.line then
        match engine bp with
        | Except.ok engId => [{ pendingId := bp.id, sessionId := sid, breakpointId := engId }]
        | Except.error _ => []
      else []
    | PendingBpType.exception =>
      if strTruthy bp.exceptionName then
        match engine bp with
        | Except.ok engId => [{ pendingId := bp.id, sessionId := sid, breakpointId := engId }]
        | Except.error _ => []
      else []
    | PendingBpType.call =>
      if strTruthy bp.functionName then
        match engine bp with
        | Except.ok engId => [{ pendingId := bp.id, sessionId := sid, breakpointId := engId }]
        | Except.error _ => []
      else []

/-- `applyToSession`: fold over the pending entries in insertion order,
accumulating the applied mappings. -/
def applyToSession (engine : PendingBp → Except String String) (sid : String)
    (bps : List PendingBp) : List AppliedBp :=
  bps.foldl (fun applied bp => applied ++ applyOne engine sid bp) []

/-- An engine that accepts every breakpoint with id `e1` (used by concrete
instances). -/
def engineAlwaysOk : PendingBp → Except String String :=
  fun _ => Except.ok "e1"

/-! # Theorems

First the codec lemmas: the fuel in `processBufferF` is irrelevant once it
covers the buffer length, which yields clean one-step unfolding laws for
`processBuffer`; then the extension and quiescence lemmas behind
chunking-independence, and the arithmetic facts about the decimal length
prefix. -/

theorem processBufferF_nil (f : Nat) (st : PState) : processBufferF f st [] = (st, [], []) := by
  cases f <;> simp [processBufferF]

theorem processBufferF_cons_dataLength (f b : Nat) (bs : List Nat) :
    processBufferF (f + 1) PState.dataLength (b :: bs) =
      match firstNul (b :: bs) with
      | none => (PState.dataLength, b :: bs, [])
      | some k =>
        match parseIntB ((b :: bs).take k) with
        | some n =>
          if n ≤ 0 then processBufferF f PState.dataLength ((b :: bs).drop (k + 1))
          else processBufferF f (PState.response n.toNat) ((b :: bs).drop (k + 1))
        | none => processBufferF f PState.dataLength ((b :: bs).drop (k + 1)) := by
  simp only [processBufferF]

theorem processBufferF_cons_response (f n b : Nat) (bs : List Nat) :
    processBufferF (f + 1) (PState.response n) (b :: bs) =
      if (b :: bs).length < n + 1 then (PState.response n, b :: bs, [])
      else
        let r := processBufferF f PState.dataLength ((b :: bs).drop (n + 1))
        (r.1, r.2.1, (b :: bs).take n :: r.2.2) := by
  simp only [processBufferF]

theorem processBufferF_irrel (f1 : Nat) : ∀ (f2 : Nat) (st : PState) (buf : List Nat),
    buf.length ≤ f1 → buf.length ≤ f2 → processBufferF f1 st buf = processBufferF f2 st buf := by
  induction f1 with
  | zero =>
    intro f2 st buf h1 _
    have hb : buf = [] := List.eq_nil_of_length_eq_zero (Nat.le_zero.mp h1)
    subst hb
    rw [processBufferF_nil, processBufferF_nil]
  | succ f ih =>
    intro f2 st buf h1 h2
    cases buf with
    | nil => rw [processBufferF_nil, processBufferF_nil]
    | cons b bs =>
      obtain ⟨g, rfl⟩ : ∃ g, f2 = g + 1 := by
        cases f2 with
        | zero => simp at h2
        | succ g => exact ⟨g, rfl⟩
      have hf : ∀ m : Nat, ((b :: bs).drop (m + 1)).length ≤ f := by
        intro m; simp at h1 ⊢; omega
      have hg : ∀ m : Nat, ((b :: bs).drop (m + 1)).length ≤ g := by
        intro m; simp at h2 ⊢; omega
      cases st with
      | dataLength =>
        rw [processBufferF_cons_dataLength, processBufferF_cons_dataLength]
        cases hfn : firstNul (b :: bs) with
        | none => rfl
        | some k =>
          dsimp only
          cases hp : parseIntB ((b :: bs).take k) with
          | none => exact ih g _ _ (hf k) (hg k)
          | some n =>
            dsimp only
            by_cases hn : n ≤ 0
            · rw [if_pos hn, if_pos hn]; exact ih g _ _ (hf k) (hg k)
            · rw [if_neg hn, if_neg hn]; exact ih g _ _ (hf k) (hg k)
      | response n =>
        rw [processBufferF_cons_response, processBufferF_cons_response]
        by_cases hl : (b :: bs).length < n + 1
        · rw [if_pos hl, if_pos hl]
        · rw [if_neg hl, if_neg hl]
          dsimp only
          rw [ih g _ _ (hf n) (hg n)]

theorem processBuffer_nil (st : PState) : processBuffer st [] = (st, [], []) := rfl

theorem processBuffer_hasFuel (f : Nat) (st : PState) (buf : List Nat)
    (h : buf.length ≤ f) : processBufferF f st buf = processBuffer st buf :=
  processBufferF_irrel f buf.length st buf h (Nat.le_refl _)

theorem firstNul_lt {buf : List Nat} {k : Nat} (h : firstNul buf = some k) :
    k < buf.length := by
  induction buf generalizing k with
  | nil => simp [firstNul] at h
  | cons b bs ih =>
    by_cases hb : b = 0
    · simp [firstNul, hb] at h
      simp [← h]
    · simp [firstNul, hb] at h
      obtain ⟨j, hj, hk⟩ := h
      have := ih hj
      simp
      omega

theorem firstNul_append {buf : List Nat} {k : Nat} (e : List Nat)
    (h : firstNul buf = some k) : firstNul (buf ++ e) = some k := by
  induction buf generalizing k with
  | nil => simp [firstNul] at h
  | cons b bs ih =>
    by_cases hb : b = 0
    · simp [firstNul, hb] at h ⊢
      omega
    · simp [firstNul, hb] at h ⊢
      obtain ⟨j, hj, hk⟩ := h
      exact ⟨j, ih hj, hk⟩

theorem processBuffer_noNul {buf : List Nat} (h : firstNul buf = none) :
    processBuffer PState.dataLength buf = (PState.dataLength, buf, []) := by
  cases buf with
  | nil => rfl
  | cons b bs =>
    simp only [processBuffer, List.length_cons]
    rw [processBufferF_cons_dataLength, h]

theorem processBuffer_invalid {buf : List Nat} {k : Nat} (h1 : firstNul buf = some k)
    (h2 : parseIntB (buf.take k) = none) :
    processBuffer PState.dataLength buf = processBuffer PState.dataLength (buf.drop (k + 1)) := by
  cases buf with
  | nil => simp [firstNul] at h1
  | cons b bs =>
    simp only [processBuffer, List.length_cons]
    rw [processBufferF_cons_dataLength, h1]
    dsimp only
    rw [h2]
    exact processBuffer_hasFuel bs.length _ _ (by simp)

theorem processBuffer_nonpos {buf : List Nat} {k : Nat} {n : Int}
    (h1 : firstNul buf = some k) (h2 : parseIntB (buf.take k) = some n) (h3 : n ≤ 0) :
    processBuffer PState.dataLength buf = processBuffer PState.dataLength (buf.drop (k + 1)) := by
  cases buf with
  | nil => simp [firstNul] at h1
  | cons b bs =>
    simp only [processBuffer, List.length_cons]
    rw [processBufferF_cons_dataLength, h1]
    dsimp only
    rw [h2]
    dsimp only
    rw [if_pos h3]
    exact processBuffer_hasFuel bs.length _ _ (by simp)

theorem processBuffer_valid {buf : List Nat} {k : Nat} {n : Int}
    (h1 : firstNul buf = some k) (h2 : parseIntB (buf.take k) = some n) (h3 : 0 < n) :
    processBuffer PState.dataLength buf =
      processBuffer (PState.response n.toNat) (buf.drop (k + 1)) := by
  cases buf with
  | nil => simp [firstNul] at h1
  | cons b bs =>
    simp only [processBuffer, List.length_cons]
    rw [processBufferF_cons_dataLength, h1]
    dsimp only
    rw [h2]
    dsimp only
    rw [if_neg (by omega)]
    exact processBuffer_hasFuel bs.length _ _ (by simp)

theorem processBuffer_short {n : Nat} {buf : List Nat} (h : buf.length < n + 1) :
    processBuffer (PState.response n) buf = (PState.response n, buf, []) := by
  cases buf with
  | nil => rfl
  | cons b bs =>
    simp only [processBuffer, List.length_cons]
    rw [processBufferF_cons_response, if_pos (by simpa using h)]

theorem processBuffer_body {n : Nat} {buf : List Nat} (h : n + 1 ≤ buf.length) :
    processBuffer (PState.response n) buf =
      ((processBuffer PState.dataLength (buf.drop (n + 1))).1,
       (processBuffer PState.dataLength (buf.drop (n + 1))).2.1,
       buf.take n :: (processBuffer PState.dataLength (buf.drop (n + 1))).2.2) := by
  cases buf with
  | nil => simp at h
  | cons b bs =>
    simp only [processBuffer, List.length_cons]
    rw [processBufferF_cons_response, if_neg (by simp at h ⊢; omega)]
    dsimp only
    rw [processBuffer_hasFuel bs.length _ _ (by simp)]
    rfl

theorem processBuffer_append_aux : ∀ (N : Nat) (buf : List Nat), buf.length ≤ N →
    ∀ (st : PState) (e : List Nat),
    processBuffer st (buf ++ e) =
      ((processBuffer (processBuffer st buf).1 ((processBuffer st buf).2.1 ++ e)).1,
       (processBuffer (processBuffer st buf).1 ((processBuffer st buf).2.1 ++ e)).2.1,
       (processBuffer st buf).2.2 ++
         (processBuffer (processBuffer st buf).1 ((processBuffer st buf).2.1 ++ e)).2.2) := by
  intro N
  induction N with
  | zero =>
    intro buf hb st e
    have hnil : buf = [] := List.eq_nil_of_length_eq_zero (Nat.le_zero.mp hb)
    subst hnil
    rw [processBuffer_nil]
    simp
  | succ N ih =>
    intro buf hb st e
    cases st with
    | dataLength =>
      cases hfn : firstNul buf with
      | none =>
        rw [processBuffer_noNul hfn]
        simp
      | some k =>
        have hk := firstNul_lt hfn
        have hfe : firstNul (buf ++ e) = some k := firstNul_append e hfn
        have htake : (buf ++ e).take k = buf.take k :=
          List.take_append_of_le_length (by omega)
        have hdrop : (buf ++ e).drop (k + 1) = buf.drop (k + 1) ++ e :=
          List.drop_append_of_le_length (by omega)
        have hlen2 : (buf.drop (k + 1)).length ≤ N := by
          simp [List.length_drop]; omega
        cases hp : parseIntB (buf.take k) with
        | none =>
          have hpe : parseIntB ((buf ++ e).take k) = none := by rw [htake]; exact hp
          rw [processBuffer_invalid hfn hp, processBuffer_invalid hfe hpe, hdrop]
          exact ih _ hlen2 PState.dataLength e
        | some n =>
          have hpe : parseIntB ((buf ++ e).take k) = some n := by rw [htake]; exact hp
          by_cases hn : n ≤ 0
          · rw [processBuffer_nonpos hfn hp hn, processBuffer_nonpos hfe hpe hn, hdrop]
            exact ih _ hlen2 PState.dataLength e
          · have hn' : 0 < n := by omega
            rw [processBuffer_valid hfn hp hn', processBuffer_valid hfe hpe hn', hdrop]
            exact ih _ hlen2 (PState.response n.toNat) e
    | response n =>
      by_cases hl : buf.length < n + 1
      · rw [processBuffer_short hl]
        simp
      · have hge : n + 1 ≤ buf.length := by omega
        have hge2 : n + 1 ≤ (buf ++ e).length := by simp; omega
        have htake : (buf ++ e).take n = buf.take n :=
          List.take_append_of_le_length (by omega)
        have hdrop : (buf ++ e).drop (n + 1) = buf.drop (n + 1) ++ e :=
          List.drop_append_of_le_length hge
        have hlen2 : (buf.drop (n + 1)).length ≤ N := by
          simp [List.length_drop]; omega
        rw [processBuffer_body hge2, processBuffer_body hge, htake, hdrop]
        rw [ih _ hlen2 PState.dataLength e]
        simp

theorem processBuffer_append (buf : List Nat) (st : PState) (e : List Nat) :
    processBuffer st (buf ++ e) =
      ((processBuffer (processBuffer st buf).1 ((processBuffer st buf).2.1 ++ e)).1,
       (processBuffer (processBuffer st buf).1 ((processBuffer st buf).2.1 ++ e)).2.1,
       (processBuffer st buf).2.2 ++
         (processBuffer (processBuffer st buf).1 ((processBuffer st buf).2.1 ++ e)).2.2) :=
  processBuffer_append_aux buf.length buf (Nat.le_refl _) st e

theorem processBuffer_residual_aux : ∀ (N : Nat) (buf : List Nat), buf.length ≤ N →
    ∀ (st : PState),
    processBuffer (processBuffer st buf).1 (processBuffer st buf).2.1 =
      ((processBuffer st buf).1, (processBuffer st buf).2.1, []) := by
  intro N
  induction N with
  | zero =>
    intro buf hb st
    have hnil : buf = [] := List.eq_nil_of_length_eq_zero (Nat.le_zero.mp hb)
    subst hnil
    rw [processBuffer_nil]
    exact processBuffer_nil st
  | succ N ih =>
    intro buf hb st
    cases st with
    | dataLength =>
      cases hfn : firstNul buf with
      | none =>
        rw [processBuffer_noNul hfn]
        exact processBuffer_noNul hfn
      | some k =>
        have hlen2 : (buf.drop (k + 1)).length ≤ N := by
          have := firstNul_lt hfn
          simp [List.length_drop]; omega
        cases hp : parseIntB (buf.take k) with
        | none =>
          rw [processBuffer_invalid hfn hp]
          exact ih _ hlen2 PState.dataLength
        | some n =>
          by_cases hn : n ≤ 0
          · rw [processBuffer_nonpos hfn hp hn]
            exact ih _ hlen2 PState.dataLength
          · rw [processBuffer_valid hfn hp (by omega)]
            exact ih _ hlen2 (PState.response n.toNat)
    | response n =>
      by_cases hl : buf.length < n + 1
      · rw [processBuffer_short hl]
        exact processBuffer_short hl
      · have hge : n + 1 ≤ buf.length := by omega
        have hlen2 : (buf.drop (n + 1)).length ≤ N := by
          simp [List.length_drop]; omega
        rw [processBuffer_body hge]
        exact ih _ hlen2 PState.dataLength

theorem processBuffer_residual (st : PState) (buf : List Nat) :
    processBuffer (processBuffer st buf).1 (processBuffer st buf).2.1 =
      ((processBuffer st buf).1, (processBuffer st buf).2.1, []) :=
  processBuffer_residual_aux buf.length buf (Nat.le_refl _) st

theorem natDigitsF_irrel (f1 : Nat) : ∀ (f2 n : Nat), n < f1 → n < f2 →
    natDigitsF f1 n = natDigitsF f2 n := by
  induction f1 with
  | zero => intro f2 n h1 _; omega
  | succ f ih =>
    intro f2 n h1 h2
    obtain ⟨g, rfl⟩ : ∃ g, f2 = g + 1 := by
      cases f2 with
      | zero => omega
      | succ g => exact ⟨g, rfl⟩
    simp only [natDigitsF]
    by_cases hn : n < 10
    · rw [if_pos hn, if_pos hn]
    · rw [if_neg hn, if_neg hn]
      have hd : n / 10 < n := Nat.div_lt_self (by omega) (by omega)
      rw [ih g (n / 10) (by omega) (by omega)]

theorem natDigits_eq (n : Nat) :
    natDigits n = if n < 10 then [n] else natDigits (n / 10) ++ [n % 10] := by
  by_cases hn : n < 10
  · rw [if_pos hn]
    simp only [natDigits, natDigitsF]
    rw [if_pos hn]
  · rw [if_neg hn]
    simp only [natDigits]
    have hstep : natDigitsF (n + 1) n = natDigitsF n (n / 10) ++ [n % 10] := by
      simp only [natDigitsF]
      rw [if_neg hn]
    have hd : n / 10 < n := Nat.div_lt_self (by omega) (by omega)
    rw [hstep, natDigitsF_irrel n (n / 10 + 1) (n / 10) (by omega) (by omega)]

theorem natDigits_lt10 (n : Nat) : ∀ d ∈ natDigits n, d < 10 := by
  induction n using Nat.strong_induction_on with
  | _ n ih =>
    intro d hd
    rw [natDigits_eq] at hd
    by_cases hn : n < 10
    · rw [if_pos hn] at hd
      simp at hd
      omega
    · rw [if_neg hn] at hd
      simp at hd
      rcases hd with h | h
      · exact ih (n / 10) (Nat.div_lt_self (by omega) (by omega)) d h
      · omega

theorem natDigits_ne_nil (n : Nat) : natDigits n ≠ [] := by
  rw [natDigits_eq]
  by_cases hn : n < 10 <;> simp [hn]

theorem digitsToNat_append_single (ds : List Nat) (d : Nat) :
    digitsToNat (ds ++ [d]) = digitsToNat ds * 10 + d := by
  simp [digitsToNat, List.foldl_append]

theorem digitsToNat_natDigits (n : Nat) : digitsToNat (natDigits n) = n := by
  induction n using Nat.strong_induction_on with
  | _ n ih =>
    rw [natDigits_eq]
    by_cases hn : n < 10
    · rw [if_pos hn]
      simp [digitsToNat]
    · rw [if_neg hn, digitsToNat_append_single,
        ih (n / 10) (Nat.div_lt_self (by omega) (by omega))]
      omega

theorem digitValB_digit {d : Nat} (hd : d < 10) : digitValB (d + 48) = some d := by
  simp only [digitValB]
  rw [if_pos ⟨by omega, by omega⟩]
  simp

theorem takeDigitsB_map48 : ∀ ds : List Nat, (∀ d ∈ ds, d < 10) →
    takeDigitsB (ds.map (· + 48)) = ds := by
  intro ds
  induction ds with
  | nil => intro _; rfl
  | cons d rest ih =>
    intro h
    simp only [List.map_cons, takeDigitsB, digitValB_digit (h d (by simp))]
    rw [ih (fun x hx => h x (by simp [hx]))]

theorem digitsBytes_ne0 (n : Nat) : ∀ b ∈ digitsBytes n, b ≠ 0 := by
  intro b hb
  simp [digitsBytes] at hb
  obtain ⟨d, _, rfl⟩ := hb
  omega

theorem firstNul_prefix : ∀ l : List Nat, (∀ b ∈ l, b ≠ 0) → ∀ r : List Nat,
    firstNul (l ++ 0 :: r) = some l.length := by
  intro l
  induction l with
  | nil => intro _ r; simp [firstNul]
  | cons b bs ih =>
    intro hl r
    have hb : b ≠ 0 := hl b (by simp)
    simp only [List.cons_append, firstNul, if_neg hb]
    rw [List.append_eq, ih (fun x hx => hl x (by simp [hx])) r]
    rfl

theorem parseIntB_digitsBytes (n : Nat) : parseIntB (digitsBytes n) = some (n : Int) := by
  obtain ⟨d, ds, hds⟩ : ∃ d ds, natDigits n = d :: ds := by
    cases h : natDigits n with
    | nil => exact absurd h (natDigits_ne_nil n)
    | cons d ds => exact ⟨d, ds, rfl⟩
  have hlt : ∀ x ∈ natDigits n, x < 10 := natDigits_lt10 n
  have hd10 : d < 10 := by
    apply hlt
    rw [hds]
    simp
  have htail : ∀ x ∈ ds, x < 10 := by
    intro x hx
    apply hlt
    rw [hds]
    simp [hx]
  have hsp : ¬ (isJsSpaceB (d + 48) = true) := by
    simp only [isJsSpaceB]
    simp only [decide_eq_true_eq]
    omega
  have htd : takeDigitsB ((d + 48) :: ds.map (· + 48)) = d :: ds := by
    have := takeDigitsB_map48 (d :: ds) (by
      intro x hx
      simp at hx
      rcases hx with rfl | hx
      · exact hd10
      · exact htail x hx)
    simpa using this
  have h45 : ¬ (((d + 48) :: ds.map (· + 48)).head? = some 45) := by simp
  have h43 : ¬ (((d + 48) :: ds.map (· + 48)).head? = some 43) := by simp
  simp only [digitsBytes, hds, List.map_cons, parseIntB, List.dropWhile_cons,
    if_neg hsp, if_neg h45, if_neg (by push_neg; exact ⟨h45, h43⟩ :
      ¬ (((d + 48) :: ds.map (· + 48)).head? = some 45 ∨
         ((d + 48) :: ds.map (· + 48)).head? = some 43))]
  rw [if_neg (by rw [htd]; simp)]
  have hv : digitsToNat (d :: ds) = n := by
    rw [← hds]
    exact digitsToNat_natDigits n
  rw [htd, hv]
  simp

theorem feed_state_residual (s : PState × List Nat) (data : List Nat) :
    processBuffer (feed s data).1.1 (feed s data).1.2 =
      ((feed s data).1.1, (feed s data).1.2, []) := by
  simp only [feed]
  exact processBuffer_residual s.1 (s.2 ++ data)

theorem feedChunks_flatten : ∀ (cs : List (List Nat)) (s : PState × List Nat),
    processBuffer s.1 s.2 = (s.1, s.2, []) → feedChunks s cs = feed s cs.flatten := by
  intro cs
  induction cs with
  | nil =>
    intro s hq
    simp only [feedChunks, List.flatten_nil, feed, List.append_nil, hq]
  | cons c cs ih =>
    intro s hq
    simp only [feedChunks, List.flatten_cons]
    rw [ih (feed s c).1 (feed_state_residual s c)]
    simp only [feed]
    rw [← List.append_assoc]
    rw [processBuffer_append (s.2 ++ c) s.1 cs.flatten]

theorem processBuffer_encodeFrames : ∀ ps : List (List Nat), (∀ p ∈ ps, p ≠ []) →
    processBuffer PState.dataLength (encodeFrames ps) = (PState.dataLength, [], ps) := by
  intro ps
  induction ps with
  | nil => intro _; rfl
  | cons p ps ih =>
    intro h
    have hp : p ≠ [] := h p (by simp)
    have hplen : 1 ≤ p.length := List.length_pos.mpr hp
    have henc : encodeFrames (p :: ps) =
        digitsBytes p.length ++ 0 :: (p ++ 0 :: encodeFrames ps) := by
      simp [encodeFrames]
    rw [henc]
    have hfn : firstNul (digitsBytes p.length ++ 0 :: (p ++ 0 :: encodeFrames ps)) =
        some (digitsBytes p.length).length :=
      firstNul_prefix _ (digitsBytes_ne0 _) _
    have htake : (digitsBytes p.length ++ 0 :: (p ++ 0 :: encodeFrames ps)).take
        (digitsBytes p.length).length = digitsBytes p.length := List.take_left _ _
    have hparse : parseIntB ((digitsBytes p.length ++
        0 :: (p ++ 0 :: encodeFrames ps)).take (digitsBytes p.length).length) =
        some (p.length : Int) := by
      rw [htake]
      exact parseIntB_digitsBytes p.length
    have hdrop : (digitsBytes p.length ++ 0 :: (p ++ 0 :: encodeFrames ps)).drop
        ((digitsBytes p.length).length + 1) = p ++ 0 :: encodeFrames ps := by
      have hsplit : digitsBytes p.length ++ 0 :: (p ++ 0 :: encodeFrames ps) =
          (digitsBytes p.length ++ [0]) ++ (p ++ 0 :: encodeFrames ps) := by simp
      rw [hsplit,
        show (digitsBytes p.length).length + 1 = (digitsBytes p.length ++ [0]).length by simp]
      exact List.drop_left _ _
    rw [processBuffer_valid hfn hparse (by exact_mod_cast hplen), hdrop,
      show ((p.length : Int)).toNat = p.length from Int.toNat_natCast _]
    have hlen : p.length + 1 ≤ (p ++ 0 :: encodeFrames ps).length := by simp
    rw [processBuffer_body hlen]
    have htake2 : (p ++ 0 :: encodeFrames ps).take p.length = p := List.take_left _ _
    have hdrop2 : (p ++ 0 :: encodeFrames ps).drop (p.length + 1) = encodeFrames ps := by
      have hsplit : p ++ 0 :: encodeFrames ps = (p ++ [0]) ++ encodeFrames ps := by simp
      rw [hsplit, show p.length + 1 = (p ++ [0]).length by simp]
      exact List.drop_left _ _
    rw [htake2, hdrop2, ih (fun q hq => h q (by simp [hq]))]

/-- C2 (amended): for any finite sequence of NON-EMPTY payloads, feeding
`digits(len_i) ‖ 0x00 ‖ payload_i ‖ 0x00` concatenated to the codec, split
into arbitrary chunks, emits exactly the original payload sequence in
order and returns the codec to its initial state; in particular the result
is independent of the chunking.  (The claim as stated, over all payload
sequences, fails for empty payloads: see the counterexample.) -/
theorem framing_roundtrip_nonempty (ps chunks : List (List Nat))
    (hne : ∀ p ∈ ps, p ≠ []) (hchunks : chunks.flatten = encodeFrames ps) :
    feedChunks codecInit chunks = (codecInit, ps) := by
  rw [feedChunks_flatten chunks codecInit (by rfl), hchunks]
  simp only [feed, codecInit, List.nil_append]
  rw [processBuffer_encodeFrames ps hne]

/-- Witness for `framing_roundtrip_nonempty`: the two payloads `AB` and `C`
encoded as `2\0AB\0 1\0C\0` and fed in two uneven chunks come back intact. -/
theorem framing_roundtrip_nonempty_witness :
    (∀ p ∈ [[65, 66], [67]], p ≠ ([] : List Nat)) ∧
    ([[50, 0, 65], [66, 0, 49, 0, 67, 0]] : List (List Nat)).flatten =
      encodeFrames [[65, 66], [67]] ∧
    feedChunks codecInit [[50, 0, 65], [66, 0, 49, 0, 67, 0]] =
      (codecInit, [[65, 66], [67]]) :=
  ⟨by decide, by decide,
    framing_roundtrip_nonempty [[65, 66], [67]] [[50, 0, 65], [66, 0, 49, 0, 67, 0]]
      (by decide) (by decide)⟩

/-- C2 counterexample: the claim as stated fails for the sequence
consisting of one empty payload.  Its encoding `digits(0) ‖ 0x00 ‖ 0x00` =
`[48, 0, 0]` parses the length `0`, which `processBuffer` rejects as
invalid (`expectedLength <= 0`), so the codec skips the prefix and emits
nothing instead of the empty payload. -/
theorem framing_roundtrip_counterexample :
    (feedChunks codecInit [encodeFrames [[]]]).2 = [] ∧
    (feedChunks codecInit [encodeFrames [[]]]).2 ≠ [[]] := by
  decide

/-- C3 (amended): in the `Response` (`AwaitingBody(n)`) state, once at
least `n + 1` bytes are buffered, the first `n` bytes are taken as the
payload and `n + 1` bytes are consumed unconditionally — the byte at
offset `n` is NOT checked for NUL, no protocol error is raised and no
one-byte resynchronization happens — after which the codec emits the
payload and continues in `DataLength` on the rest. -/
theorem awaitingBody_consumes_unconditionally (n : Nat) (buf : List Nat)
    (h : n + 1 ≤ buf.length) :
    processBuffer (PState.response n) buf =
      ((processBuffer PState.dataLength (buf.drop (n + 1))).1,
       (processBuffer PState.dataLength (buf.drop (n + 1))).2.1,
       buf.take n :: (processBuffer PState.dataLength (buf.drop (n + 1))).2.2) :=
  processBuffer_body h

/-- Witness for `awaitingBody_consumes_unconditionally` at `n = 1`,
buffer `[65, 66, 49]`. -/
theorem awaitingBody_consumes_unconditionally_witness :
    1 + 1 ≤ ([65, 66, 49] : List Nat).length ∧
    processBuffer (PState.response 1) [65, 66, 49] =
      ((processBuffer PState.dataLength ([65, 66, 49].drop 2)).1,
       (processBuffer PState.dataLength ([65, 66, 49].drop 2)).2.1,
       [65, 66, 49].take 1 :: (processBuffer PState.dataLength ([65, 66, 49].drop 2)).2.2) :=
  ⟨by decide, awaitingBody_consumes_unconditionally 1 [65, 66, 49] (by decide)⟩

/-- C3 counterexample: with `n = 1` and buffer `[65, 66]` the byte at
offset `1` is `66 ≠ 0`, yet the codec emits the payload `[65]` and
consumes both bytes; under the claim it would resynchronize by advancing
one byte, leaving residual `[66]` in `AwaitingLength` with no payload
emitted. -/
theorem awaitingBody_trailer_counterexample :
    processBuffer (PState.response 1) [65, 66] = (PState.dataLength, [], [[65]]) ∧
    [65, 66].getD 1 0 ≠ 0 ∧
    (processBuffer (PState.response 1) [65, 66]).2.1 ≠ [66] := by
  decide

theorem unescapeBody_esc (c : Char) (cs : List Char) :
    unescapeBody ('\\' :: c :: cs) = c :: unescapeBody cs := by
  simp [unescapeBody]

theorem unescapeBody_cons_ne {c : Char} (hc : c ≠ '\\') (cs : List Char) :
    unescapeBody (c :: cs) = c :: unescapeBody cs := by
  cases cs with
  | nil => simp [unescapeBody, hc]
  | cons c2 cs2 => simp [unescapeBody, hc]

theorem deEscapeArg_cons_ne {c : Char} (hc : c ≠ '"') (cs : List Char) :
    deEscapeArg (c :: cs) = c :: cs := by
  simp [deEscapeArg, hc]

theorem unescape_escape (v : List Char) :
    unescapeBody (replaceQuote (replaceBackslash v)) = v := by
  induction v with
  | nil => rfl
  | cons c cs ih =>
    by_cases hb : c = '\\'
    · subst hb
      simp only [replaceBackslash, reduceIte, replaceQuote]
      rw [if_neg (by decide), if_neg (by decide), unescapeBody_esc, ih]
    · by_cases hq : c = '"'
      · subst hq
        simp only [replaceBackslash]
        rw [if_neg (by decide)]
        simp only [replaceQuote, reduceIte]
        rw [unescapeBody_esc, ih]
      · simp only [replaceBackslash, if_neg hb, replaceQuote, if_neg hq]
        rw [unescapeBody_cons_ne hb, ih]

/-- C7: for every argument value `v`, the de-escaped parse of
`escapeArg v` equals `v`: quoting applies exactly when `v` contains
whitespace, a double quote or a backslash, inner backslashes and quotes
are backslash-escaped, other values pass through unchanged, and the
(spec-modelled) de-escaping parse inverts the escaping. -/
theorem escapeArg_roundtrip (v : List Char) : deEscapeArg (escapeArg v) = v := by
  by_cases hs : hasSpecialChar v
  · simp only [escapeArg, if_pos hs]
    have hlast : (replaceQuote (replaceBackslash v) ++ ['"']).getLast? = some '"' := by
      simp [List.getLast?_append]
    simp only [deEscapeArg]
    rw [if_pos hlast, List.dropLast_concat]
    exact unescape_escape v
  · simp only [escapeArg, if_neg hs]
    cases v with
    | nil => rfl
    | cons c cs =>
      have hc : c ≠ '"' := by
        intro hcq
        apply hs
        simp [hasSpecialChar, hcq]
      exact deEscapeArg_cons_ne hc cs

theorem drainQueue_eq_self (s : ConnState) (h3 : s.pending = [] → s.queue = []) :
    drainQueue s = s := by
  rcases hq : s.queue with _ | ⟨c, rest⟩ <;> rcases hp : s.pending with _ | ⟨t, ts⟩ <;>
    simp only [drainQueue, hq, hp]
  exact absurd (h3 hp) (by rw [hq]; simp)

theorem drainQueue_inv (s : ConnState) (h1 : s.pending.length ≤ 1)
    (h2 : ∀ x ∈ s.pending, 1 ≤ x) :
    (drainQueue s).pending.length ≤ 1 ∧ (∀ x ∈ (drainQueue s).pending, 1 ≤ x) ∧
      ((drainQueue s).pending = [] → (drainQueue s).queue = []) := by
  rcases hq : s.queue with _ | ⟨c, rest⟩ <;> rcases hp : s.pending with _ | ⟨t, ts⟩ <;>
    simp only [drainQueue, hq, hp]
  · exact ⟨by simp, by simp, by simp⟩
  · exact ⟨by rw [← hp]; exact h1, by rw [← hp]; exact h2, by simp⟩
  · simp [executeCmd, hp]
  · exact ⟨by rw [← hp]; exact h1, by rw [← hp]; exact h2, by simp⟩

theorem drainQueue_written_le (s : ConnState) :
    (drainQueue s).written.length ≤ s.written.length + 1 := by
  rcases hq : s.queue with _ | ⟨c, rest⟩ <;> rcases hp : s.pending with _ | ⟨t, ts⟩ <;>
    simp only [drainQueue, hq, hp] <;> simp [executeCmd]

theorem drainQueue_queue_ge (s : ConnState) :
    s.queue.length ≤ (drainQueue s).queue.length + 1 := by
  rcases hq : s.queue with _ | ⟨c, rest⟩ <;> rcases hp : s.pending with _ | ⟨t, ts⟩ <;>
    simp only [drainQueue, hq, hp] <;> simp [executeCmd, hq]

theorem deletePending_sub (t : Option Int) (p : List Nat) :
    (deletePending t p).length ≤ p.length ∧ ∀ x ∈ deletePending t p, x ∈ p := by
  cases t with
  | none => exact ⟨Nat.le_refl _, fun x hx => hx⟩
  | some n =>
    constructor
    · exact List.length_filter_le _ p
    · intro x hx
      exact List.mem_of_mem_filter hx

theorem connInv_step (s : ConnState) (e : ConnEvent)
    (h1 : s.pending.length ≤ 1) (h2 : ∀ x ∈ s.pending, 1 ≤ x)
    (h3 : s.pending = [] → s.queue = []) :
    (stepConn s e).pending.length ≤ 1 ∧ (∀ x ∈ (stepConn s e).pending, 1 ≤ x) ∧
      ((stepConn s e).pending = [] → (stepConn s e).queue = []) := by
  cases e with
  | send c =>
    simp only [stepConn, sendCommandEvt]
    by_cases hc : s.closed
    · rw [if_pos hc]
      exact ⟨h1, h2, h3⟩
    · rw [if_neg hc]
      by_cases hp : s.pending.isEmpty
      · rw [if_pos hp]
        have hpe : s.pending = [] := List.isEmpty_iff.mp hp
        simp [executeCmd, hpe]
      · rw [if_neg hp]
        have hpe : s.pending ≠ [] := by
          intro hcontra
          exact hp (List.isEmpty_iff.mpr hcontra)
        exact ⟨h1, h2, fun hcontra => absurd hcontra hpe⟩
  | response t =>
    simp only [stepConn, handleResponseEvt]
    obtain ⟨hd1, hd2⟩ := deletePending_sub t s.pending
    exact drainQueue_inv _ (by simpa using Nat.le_trans hd1 h1)
      (by intro x hx; exact h2 x (hd2 x hx))
  | timeout t =>
    simp only [stepConn, handleTimeoutEvt]
    refine drainQueue_inv _ ?_ ?_
    · simp only
      exact Nat.le_trans (List.length_filter_le _ s.pending) h1
    · intro x hx
      simp only at hx
      exact h2 x (List.mem_of_mem_filter hx)
  | socketClose =>
    simp [stepConn, handleCloseEvt]

theorem connInv_foldl : ∀ (evts : List ConnEvent) (s : ConnState),
    s.pending.length ≤ 1 → (∀ x ∈ s.pending, 1 ≤ x) → (s.pending = [] → s.queue = []) →
    (List.foldl stepConn s evts).pending.length ≤ 1 ∧
      (∀ x ∈ (List.foldl stepConn s evts).pending, 1 ≤ x) ∧
      ((List.foldl stepConn s evts).pending = [] →
        (List.foldl stepConn s evts).queue = []) := by
  intro evts
  induction evts with
  | nil => intro s h1 h2 h3; exact ⟨h1, h2, h3⟩
  | cons e es ih =>
    intro s h1 h2 h3
    obtain ⟨g1, g2, g3⟩ := connInv_step s e h1 h2 h3
    exact ih _ g1 g2 g3

theorem connInv_run (evts : List ConnEvent) :
    (runConn evts).pending.length ≤ 1 ∧ (∀ x ∈ (runConn evts).pending, 1 ≤ x) ∧
      ((runConn evts).pending = [] → (runConn evts).queue = []) :=
  connInv_foldl evts connInit (by simp [connInit]) (by simp [connInit]) (by simp [connInit])

/-- C1: over every event interleaving of a connection — any number of
concurrent `sendCommand` calls, responses, timeouts and a close — at most
one command is outstanding (`|pendingCommands| ≤ 1`); a `sendCommand`
issued while one is outstanding appends the call to the tail of the FIFO
queue and writes nothing to the socket; any single event writes at most
one command to the socket; and completing a response dequeues at most one
queued command. -/
theorem connection_single_outstanding (evts : List ConnEvent) :
    (runConn evts).pending.length ≤ 1 ∧
    (∀ c, (runConn evts).pending ≠ [] → (runConn evts).closed = false →
      (stepConn (runConn evts) (ConnEvent.send c)).queue = (runConn evts).queue ++ [c] ∧
      (stepConn (runConn evts) (ConnEvent.send c)).written = (runConn evts).written) ∧
    (∀ e, (stepConn (runConn evts) e).written.length ≤ (runConn evts).written.length + 1) ∧
    (∀ t, (runConn evts).queue.length ≤
      (stepConn (runConn evts) (ConnEvent.response t)).queue.length + 1) := by
  refine ⟨(connInv_run evts).1, ?_, ?_, ?_⟩
  · intro c hp hc
    have hcl : ¬ ((runConn evts).closed = true) := by simp [hc]
    have hne : ¬ ((runConn evts).pending.isEmpty = true) := by
      rw [List.isEmpty_iff]
      exact hp
    constructor
    · simp only [stepConn, sendCommandEvt, if_neg hcl, if_neg hne]
    · simp only [stepConn, sendCommandEvt, if_neg hcl, if_neg hne]
  · intro e
    cases e with
    | send c =>
      simp only [stepConn, sendCommandEvt]
      split
      · omega
      · split
        · simp [executeCmd]
        · simp
    | response t =>
      simp only [stepConn, handleResponseEvt]
      exact Nat.le_trans (drainQueue_written_le _) (by simp)
    | timeout t =>
      simp only [stepConn, handleTimeoutEvt]
      exact Nat.le_trans (drainQueue_written_le _) (by simp)
    | socketClose =>
      simp [stepConn, handleCloseEvt]
  · intro t
    simp only [stepConn, handleResponseEvt]
    have hg := drainQueue_queue_ge { runConn evts with
      pending := deletePending t (runConn evts).pending,
      emitted := (runConn evts).emitted ++ [t] }
    simpa using hg

/-- Witness for `connection_single_outstanding`: after one `sendCommand`
a second one is queued, not written. -/
theorem connection_single_outstanding_witness :
    (runConn [ConnEvent.send 5, ConnEvent.send 7]).pending.length ≤ 1 ∧
    (stepConn (runConn [ConnEvent.send 5]) (ConnEvent.send 7)).queue =
      (runConn [ConnEvent.send 5]).queue ++ [7] := by
  refine ⟨(connection_single_outstanding [ConnEvent.send 5, ConnEvent.send 7]).1, ?_⟩
  exact ((connection_single_outstanding [ConnEvent.send 5]).2.1 7 (by decide) (by decide)).1

theorem deletePending_of_pos {p : List Nat} (hp : ∀ x ∈ p, 1 ≤ x) {t : Option Int}
    (ht : t = some 0 ∨ t = none) : deletePending t p = p := by
  rcases ht with rfl | rfl
  · simp only [deletePending]
    apply List.filter_eq_self.mpr
    intro x hx
    have := hp x hx
    simp
    omega
  · rfl

/-- C8 (amended): a response whose `transaction_id` attribute is missing
parses to transaction id `0`; a wholly non-numeric attribute parses to
`NaN` (`none`), not `0`.  In either case, since every waiter id is at
least `1` (ids come from pre-incrementing a counter starting at `0`), the
response completes or rejects no pending waiter: the pending set is
unchanged, the response is still emitted as a `response` event, and the
queue-draining step is still applied to the resulting state. -/
theorem unmatched_response_drains_queue (evts : List ConnEvent) (a : Option String)
    (h : parseTransactionId a = some 0 ∨ parseTransactionId a = none) :
    parseTransactionId none = some 0 ∧
    (stepConn (runConn evts) (ConnEvent.response (parseTransactionId a))).pending =
      (runConn evts).pending ∧
    (stepConn (runConn evts) (ConnEvent.response (parseTransactionId a))).emitted =
      (runConn evts).emitted ++ [parseTransactionId a] ∧
    stepConn (runConn evts) (ConnEvent.response (parseTransactionId a)) =
      drainQueue { runConn evts with
        emitted := (runConn evts).emitted ++ [parseTransactionId a] } := by
  have hdel : deletePending (parseTransactionId a) (runConn evts).pending =
      (runConn evts).pending :=
    deletePending_of_pos (connInv_run evts).2.1 h
  have hstep : stepConn (runConn evts) (ConnEvent.response (parseTransactionId a)) =
      drainQueue { runConn evts with
        emitted := (runConn evts).emitted ++ [parseTransactionId a] } := by
    simp only [stepConn, handleResponseEvt, hdel]
  have hself : drainQueue { runConn evts with
      emitted := (runConn evts).emitted ++ [parseTransactionId a] } =
      { runConn evts with
        emitted := (runConn evts).emitted ++ [parseTransactionId a] } :=
    drainQueue_eq_self _ (connInv_run evts).2.2
  refine ⟨by decide, ?_, ?_, hstep⟩
  · rw [hstep, hself]
  · rw [hstep, hself]

/-- Witness for `unmatched_response_drains_queue`: the attribute `abc`
parses to `NaN` and leaves the single outstanding waiter of a connection
untouched. -/
theorem unmatched_response_drains_queue_witness :
    (parseTransactionId (some "abc") = some 0 ∨ parseTransactionId (some "abc") = none) ∧
    (stepConn (runConn [ConnEvent.send 5])
        (ConnEvent.response (parseTransactionId (some "abc")))).pending =
      (runConn [ConnEvent.send 5]).pending :=
  ⟨Or.inr (by decide),
    (unmatched_response_drains_queue [ConnEvent.send 5] (some "abc") (Or.inr (by decide))).2.1⟩

/-- C8 counterexample: a non-numeric `transaction_id` attribute is parsed
by `parseInt` to `NaN` (modelled `none`), not to `0` as the claim states;
only a missing attribute falls back to `'0'` and parses to `0`. -/
theorem nonNumericTxId_counterexample :
    parseTransactionId (some "abc") ≠ some 0 ∧
    parseTransactionId (some "abc") = none ∧
    parseTransactionId none = some 0 := by
  refine ⟨by decide, by decide, by decide⟩

theorem applyToSession_foldl_acc (engine : PendingBp → Except String String)
    (sid : String) : ∀ (bps : List PendingBp) (acc : List AppliedBp),
    bps.foldl (fun applied bp => applied ++ applyOne engine sid bp) acc =
      acc ++ bps.foldl (fun applied bp => applied ++ applyOne engine sid bp) [] := by
  intro bps
  induction bps with
  | nil => intro acc; simp
  | cons bp rest ih =>
    intro acc
    simp only [List.foldl_cons]
    rw [ih (acc ++ applyOne engine sid bp), ih ([] ++ applyOne engine sid bp)]
    simp

/-- C4 (amended): `applyToSession` walks the pending entries in insertion
order and each entry contributes its own mappings independently — a
failure of one application never aborts the remaining entries; a disabled
entry contributes nothing; an enabled entry accepted by the engine
contributes the applied mapping
`{pending_id, session_id, engine_breakpoint_id}` exactly when its
kind-specific fields are truthy — a line entry needs a non-empty `file`
and a non-zero `line`, an exception entry a non-empty exception name, a
call entry a non-empty function name — and contributes nothing when any
of them is falsy; an entry whose application throws contributes nothing.
(The claim as stated — every enabled entry is applied — fails for an
enabled line entry with `line = 0` or an empty file, which the
`if (bp.file && bp.line)` guard silently skips.) -/
theorem applyToSession_per_entry (engine : PendingBp → Except String String)
    (sid : String) (bp : PendingBp) (rest : List PendingBp) :
    applyToSession engine sid (bp :: rest) =
      applyOne engine sid bp ++ applyToSession engine sid rest ∧
    (bp.enabled = false → applyOne engine sid bp = []) ∧
    (∀ engId, bp.enabled = true → engine bp = Except.ok engId →
      (bp.typ = PendingBpType.line →
        applyOne engine sid bp =
          if strTruthy bp.file ∧ natTruthy bp.line
          then [{ pendingId := bp.id, sessionId := sid, breakpointId := engId }]
          else []) ∧
      (bp.typ = PendingBpType.exception →
        applyOne engine sid bp =
          if strTruthy bp.exceptionName
          then [{ pendingId := bp.id, sessionId := sid, breakpointId := engId }]
          else []) ∧
      (bp.typ = PendingBpType.call →
        applyOne engine sid bp =
          if strTruthy bp.functionName
          then [{ pendingId := bp.id, sessionId := sid, breakpointId := engId }]
          else [])) ∧
    (∀ msg, engine bp = Except.error msg → applyOne engine sid bp = []) := by
  refine ⟨?_, ?_, ?_, ?_⟩
  · simp only [applyToSession, List.foldl_cons]
    rw [applyToSession_foldl_acc engine sid rest ([] ++ applyOne engine sid bp)]
    simp
  · intro hd
    simp [applyOne, hd]
  · intro engId hen heng
    refine ⟨?_, ?_, ?_⟩
    · intro htyp
      simp only [applyOne, hen, htyp]
      rw [if_neg (by simp)]
      by_cases hg : strTruthy bp.file ∧ natTruthy bp.line
      · rw [if_pos hg, if_pos hg, heng]
      · rw [if_neg hg, if_neg hg]
    · intro htyp
      simp only [applyOne, hen, htyp]
      rw [if_neg (by simp)]
      by_cases hg : strTruthy bp.exceptionName = true
      · rw [if_pos hg, if_pos hg, heng]
      · rw [if_neg hg, if_neg hg]
    · intro htyp
      simp only [applyOne, hen, htyp]
      rw [if_neg (by simp)]
      by_cases hg : strTruthy bp.functionName = true
      · rw [if_pos hg, if_pos hg, heng]
      · rw [if_neg hg, if_neg hg]
  · intro msg heng
    simp only [applyOne, heng]
    split
    · rfl
    · split <;> split <;> rfl

/-- Witness for `applyToSession_per_entry`: an enabled line entry with
truthy fields is applied and mapped; an enabled exception entry with an
empty exception name is skipped; a disabled entry contributes nothing. -/
theorem applyToSession_per_entry_witness :
    applyOne engineAlwaysOk "s1"
      { id := "pending_1", typ := PendingBpType.line, file := some "a.php",
        line := some 10, exceptionName := none, functionName := none,
        enabled := true } =
      [{ pendingId := "pending_1", sessionId := "s1", breakpointId := "e1" }] ∧
    applyOne engineAlwaysOk "s1"
      { id := "pending_3", typ := PendingBpType.exception, file := none,
        line := none, exceptionName := some "", functionName := none,
        enabled := true } = [] ∧
    applyOne engineAlwaysOk "s1"
      { id := "pending_2", typ := PendingBpType.line, file := some "b.php",
        line := some 3, exceptionName := none, functionName := none,
        enabled := false } = [] :=
  ⟨((((applyToSession_per_entry engineAlwaysOk "s1" _ []).2.2.1 "e1" rfl rfl).1)
      rfl).trans (by decide),
   ((((applyToSession_per_entry engineAlwaysOk "s1" _ []).2.2.1 "e1" rfl rfl).2.1)
      rfl).trans (by decide),
   (applyToSession_per_entry engineAlwaysOk "s1" _ []).2.1 rfl⟩

/-- C4 counterexample: an enabled line entry with `line = 0` is skipped by
the `if (bp.file && bp.line)` truthiness guard even though the engine
would accept it, so no set-breakpoint operation is issued and no applied
mapping is recorded, contradicting the claim that every enabled entry is
applied. -/
theorem applyToSession_line0_counterexample :
    applyToSession engineAlwaysOk "s1"
      [{ id := "pending_1", typ := PendingBpType.line, file := some "a.php",
         line := some 0, exceptionName := none, functionName := none,
         enabled := true }] = [] ∧
    ({ id := "pending_1", typ := PendingBpType.line, file := some "a.php",
       line := some 0, exceptionName := none, functionName := none,
       enabled := true } : PendingBp).enabled = true := by
  decide

/-- C5 (amended): when the session that `activeSessionId` points at
closes, the handler removes the entry and elects the FIRST remaining
session in creation (insertion) order regardless of its status — it does
not prefer sessions in `break` status — or sets `activeSessionId` to
`null` when none remain; when the closing session was not the active one,
`activeSessionId` is unchanged. -/
theorem activeClose_elects_first_remaining (st : MgrState) (sid : String) :
    (handleSessionClose sid st).sessions = st.sessions.filter (fun s => s.id ≠ sid) ∧
    (st.activeId = some sid →
      (handleSessionClose sid st).activeId =
        (st.sessions.filter (fun s => s.id ≠ sid)).head?.map (fun s => s.id)) ∧
    (st.activeId ≠ some sid → (handleSessionClose sid st).activeId = st.activeId) := by
  by_cases h : st.activeId = some sid
  · refine ⟨?_, fun _ => ?_, fun hc => absurd h hc⟩
    · simp only [handleSessionClose, if_pos h]
      cases hh : (st.sessions.filter (fun s => s.id ≠ sid)).head? <;> rfl
    · simp only [handleSessionClose, if_pos h]
      cases hh : (st.sessions.filter (fun s => s.id ≠ sid)).head? <;> rfl
  · refine ⟨?_, fun hc => absurd hc h, fun _ => ?_⟩ <;>
      simp only [handleSessionClose, if_neg h]

/-- Witness for `activeClose_elects_first_remaining` on a concrete
manager state whose active session closes. -/
theorem activeClose_elects_first_remaining_witness :
    (handleSessionClose "s0"
      { sessions := [{ id := "s0", status := "break" },
                     { id := "s1", status := "running" }],
        activeId := some "s0" }).activeId =
      (([{ id := "s0", status := "break" },
         { id := "s1", status := "running" }] : List MgrSession).filter
           (fun s => s.id ≠ "s0")).head?.map (fun s => s.id) :=
  (activeClose_elects_first_remaining
    { sessions := [{ id := "s0", status := "break" },
                   { id := "s1", status := "running" }],
      activeId := some "s0" } "s0").2.1 rfl

/-- C5 counterexample: sessions `s1` (running, created earlier) and `s2`
(break) remain after the active `s0` closes; the handler elects `s1`, the
first remaining in insertion order, while the claim's election rules
elect the `break` session `s2`. -/
theorem activeClose_election_counterexample :
    (handleSessionClose "s0"
      { sessions := [{ id := "s0", status := "running" },
                     { id := "s1", status := "running" },
                     { id := "s2", status := "break" }],
        activeId := some "s0" }).activeId = some "s1" ∧
    specElectActive
      ((handleSessionClose "s0"
        { sessions := [{ id := "s0", status := "running" },
                       { id := "s1", status := "running" },
                       { id := "s2", status := "break" }],
          activeId := some "s0" }).sessions) = some "s2" ∧
    (some "s1" : Option String) ≠ some "s2" := by
  decide

/-- C6 (amended): `getVariable` and `getSource` MASK engine errors: when
the response carries an `error` element they return `null`, surfacing
neither the engine's code nor its message; `setLineBreakpoint`, by
contrast, raises an error embedding the engine's message. -/
theorem engineError_masked (r : RespModel) (e : DbgpErr) (h : r.error = some e) :
    getVariableFromResponse r = none ∧
    getSourceFromResponse r = none ∧
    setLineBreakpointFromResponse r =
      Except.error ("Failed to set breakpoint: " ++ e.message) := by
  refine ⟨?_, ?_, ?_⟩
  · simp [getVariableFromResponse, h]
  · simp [getSourceFromResponse, h]
  · simp [setLineBreakpointFromResponse, h]

/-- Witness for `engineError_masked` at a concrete `property_get` error
response (code 300, property not found). -/
theorem engineError_masked_witness :
    getVariableFromResponse
      { status := none, message := none,
        error := some { code := 300, message := "property does not exist" },
        property := none, dataText := none, dataEncoding := none,
        dataId := none, dataResolved := none } = none ∧
    getSourceFromResponse
      { status := none, message := none,
        error := some { code := 300, message := "property does not exist" },
        property := none, dataText := none, dataEncoding := none,
        dataId := none, dataResolved := none } = none :=
  ⟨(engineError_masked _ _ rfl).1, (engineError_masked _ _ rfl).2.1⟩

/-- C6 counterexample: two responses carrying DIFFERENT engine errors
(code 300 vs code 301, different messages) produce identical results for
`getVariable` (`null`) and for `getSource` (`null`): the engine's code
and message are not surfaced to the caller, contradicting the claim. -/
theorem engineError_not_surfaced_counterexample :
    getVariableFromResponse
      { status := none, message := none,
        error := some { code := 300, message := "property does not exist" },
        property := none, dataText := none, dataEncoding := none,
        dataId := none, dataResolved := none } =
    getVariableFromResponse
      { status := none, message := none,
        error := some { code := 301, message := "invalid stack depth" },
        property := none, dataText := none, dataEncoding := none,
        dataId := none, dataResolved := none } ∧
    getSourceFromResponse
      { status := none, message := none,
        error := some { code := 100, message := "can not open file" },
        property := none, dataText := none, dataEncoding := none,
        dataId := none, dataResolved := none } = none ∧
    (some { code := 300, message := "property does not exist" } : Option DbgpErr) ≠
      some { code := 301, message := "invalid stack depth" } := by
  decide

theorem parseStream_eq (a : StreamAttrs) :
    parseStream a =
      { typ := a.typ,
        encoding := jsOrStr a.encoding "base64",
        content :=
          if jsOrStr a.encoding "base64" = "base64" ∧ jsOrStr a.text "" ≠ ""
          then b64decodeStr (jsOrStr a.text "") else jsOrStr a.text "" } := rfl

/-- C9: a `stream` element with no `encoding` attribute is treated as
base64: the emitted record carries `encoding = "base64"` and its content
is the base64 decoding of the text; and in general the exposed content is
either the base64 decoding of the text or — only when an `encoding`
attribute is present, non-empty and different from `base64` — the text
passed through undecoded. -/
theorem streamEncoding_default_base64 (a : StreamAttrs) :
    (a.encoding = none →
      (parseStream a).encoding = "base64" ∧
      (parseStream a).content = b64decodeStr (jsOrStr a.text "")) ∧
    ((parseStream a).content = b64decodeStr (jsOrStr a.text "") ∨
      (∃ e, a.encoding = some e ∧ e ≠ "base64" ∧ e ≠ "" ∧
        (parseStream a).content = jsOrStr a.text "")) := by
  have hempty : b64decodeStr "" = "" := rfl
  have hdec : jsOrStr a.encoding "base64" = "base64" →
      (parseStream a).content = b64decodeStr (jsOrStr a.text "") := by
    intro h
    rw [parseStream_eq]
    dsimp only
    by_cases hc : jsOrStr a.text "" = ""
    · rw [if_neg (fun hcontra => hcontra.2 hc), hc, hempty]
    · rw [if_pos ⟨h, hc⟩]
  constructor
  · intro he
    have henc : jsOrStr a.encoding "base64" = "base64" := by rw [he]; simp [jsOrStr]
    refine ⟨?_, hdec henc⟩
    rw [parseStream_eq]
    exact henc
  · by_cases hbase : jsOrStr a.encoding "base64" = "base64"
    · exact Or.inl (hdec hbase)
    · right
      cases he : a.encoding with
      | none => exact absurd (by rw [he]; simp [jsOrStr]) hbase
      | some e =>
        have he2 : e ≠ "" := by
          intro hcontra
          apply hbase
          rw [he, hcontra]
          simp [jsOrStr]
        have he1 : e ≠ "base64" := by
          intro hcontra
          apply hbase
          rw [he, hcontra]
          simp [jsOrStr]
        refine ⟨e, rfl, he1, he2, ?_⟩
        rw [parseStream_eq]
        dsimp only
        rw [if_neg (fun hcontra => hbase hcontra.1)]

/-- Witness for `streamEncoding_default_base64`: a stream record with no
encoding attribute and text `aGk=` decodes to `hi`. -/
theorem streamEncoding_default_base64_witness :
    (parseStream { typ := none, encoding := none, text := some "aGk=" }).encoding =
      "base64" ∧
    (parseStream { typ := none, encoding := none, text := some "aGk=" }).content =
      b64decodeStr (jsOrStr (some "aGk=") "") ∧
    b64decodeStr "aGk=" = "hi" :=
  ⟨((streamEncoding_default_base64
      { typ := none, encoding := none, text := some "aGk=" }).1 rfl).1,
   ((streamEncoding_default_base64
      { typ := none, encoding := none, text := some "aGk=" }).1 rfl).2,
   by decide⟩

/-- C10: after `stop` resolves, the session status is `stopped`
unconditionally: the constructor's `response` handler runs first (and may
set any status the response carries), then `stop` overwrites the status
with `stopped`; the location fields keep whatever the handler set. -/
theorem stop_overwrites_status (st : SessState) (r : RespModel) :
    (sessionAfterStop st r).status = "stopped" ∧
    (sessionAfterStop st r).currentFile = (onResponse st r).currentFile ∧
    (sessionAfterStop st r).currentLine = (onResponse st r).currentLine :=
  ⟨rfl, rfl, rfl⟩

end XdebugMcp
